import Mathlib

/-!
Verification development for the rag-vector-storage-service repository.

Strings from the TypeScript source are modelled as lists of characters
(JavaScript string comparison with the relational operators is code-unit
lexicographic; for the ASCII keys handled here this agrees with the
character-value lexicographic order used below).  S3, SQS, DynamoDB and the
home vector server are environments: their contents and per-call outcomes are
explicit inputs to the embedded functions.  Fallible TypeScript code (throwing
functions) is embedded with Option and Except results.
-/

namespace Poller

/-- JavaScript relational comparison of strings, modelled on lists of
characters: code-unit lexicographic order. -/
def strLt : List Char → List Char → Bool
  | [], [] => false
  | [], _ :: _ => true
  | _ :: _, [] => false
  | a :: as, b :: bs =>
    if a.toNat < b.toNat then true
    else if b.toNat < a.toNat then false
    else strLt as bs

/-- Lowercase hexadecimal character class, the `[a-f0-9]` of the key regex. -/
def isLowerHex (c : Char) : Bool :=
  c.isDigit || (97 ≤ c.toNat && c.toNat ≤ 102)

/-- Match a list of single-character predicates against the front of a list of
characters, returning the remainder on success.  This is how the anchored
regexes of the poller are embedded. -/
def matchPats : List (Char → Bool) → List Char → Option (List Char)
  | [], cs => some cs
  | _ :: _, [] => none
  | p :: ps, c :: cs => if p c then matchPats ps cs else none

/-- The 24-character timestamp shape `\d{4}-\d{2}-\d{2}T\d{2}:\d{2}:\d{2}\.\d{3}Z`
shared by both poller regexes. -/
def tsPats : List (Char → Bool) :=
  [Char.isDigit, Char.isDigit, Char.isDigit, Char.isDigit, (· == '-'),
   Char.isDigit, Char.isDigit, (· == '-'),
   Char.isDigit, Char.isDigit, (· == 'T'),
   Char.isDigit, Char.isDigit, (· == ':'),
   Char.isDigit, Char.isDigit, (· == ':'),
   Char.isDigit, Char.isDigit, (· == '.'),
   Char.isDigit, Char.isDigit, Char.isDigit, (· == 'Z')]

/-- After the timestamp: a dash, a 64 character lowercase hex hash, and the
literal suffix `.json`, with nothing following (the regex is `$`-anchored). -/
def hashDotJson : List Char → Bool
  | c :: rest =>
    c == '-' && rest.length == 69 && (rest.take 64).all isLowerHex
      && rest.drop 64 == String.toList ".json"
  | [] => false

/-- `isTimestampHashKey` of vector-indexing-poller.ts: test of the anchored
regex `^\d{4}-\d{2}-\d{2}T\d{2}:\d{2}:\d{2}\.\d{3}Z-[a-f0-9]{64}\.json$`. -/
def isTimestampHashKey (key : List Char) : Bool :=
  match matchPats tsPats key with
  | some rest => hashDotJson rest
  | none => false

/-- `extractTimestampFromKey` of vector-indexing-poller.ts: match of
`^(\d{4}-\d{2}-\d{2}T\d{2}:\d{2}:\d{2}\.\d{3}Z)-` returning the captured
timestamp; the function throws (here: none) when the key does not match. -/
def extractTimestampFromKey (key : List Char) : Option (List Char) :=
  match matchPats tsPats key with
  | some (c :: _) => if c == '-' then some (key.take 24) else none
  | _ => none

/-- Insertion step of the key sort (`.sort((a, b) => a.Key.localeCompare(b.Key))`;
for the ASCII keys concerned localeCompare agrees with code-unit order). -/
def insertKey (k : List Char) : List (List Char) → List (List Char)
  | [] => [k]
  | x :: xs => if strLt x k then x :: insertKey k xs else k :: x :: xs

/-- Sorting the listed keys ascending. -/
def sortKeys : List (List Char) → List (List Char)
  | [] => []
  | k :: ks => insertKey k (sortKeys ks)

/-- `CheckpointRecord` of vector-indexing-poller.ts restricted to the fields
the algorithm reads and writes; `serviceId` is the fixed pipeline id and
`updatedAt` is a wall-clock audit field, neither of which influences control
flow. -/
structure Checkpoint where
  lastProcessedTimestamp : List Char
  lastProcessedKey : List Char
deriving DecidableEq, Repr

/-- S3 `ListObjectsV2` as consumed by `listNewEmbeddings`: keys are returned in
ascending order, strictly after the `StartAfter` key when one is given, and
truncated at `MaxKeys`. -/
def s3List (bucket : List (List Char)) (batchSize : Nat)
    (startAfter : Option (List Char)) : List (List Char) :=
  (match startAfter with
    | some sa => (sortKeys bucket).filter (fun k => strLt sa k)
    | none => sortKeys bucket).take batchSize

/-- The checkpoint-timestamp filter of `listNewEmbeddings`:
`extractTimestampFromKey(obj.Key) > checkpoint.lastProcessedTimestamp`. -/
def tsAfter (ts : List Char) (key : List Char) : Bool :=
  match extractTimestampFromKey key with
  | some t => strLt ts t
  | none => false

/-- `listNewEmbeddings` of vector-indexing-poller.ts: list from the embeddings
bucket starting after the checkpoint key, keep only keys matching the
timestamp-hash shape, sort ascending, and when a checkpoint exists keep only
keys whose timestamp is strictly greater than the checkpoint timestamp. -/
def listNewEmbeddings (bucket : List (List Char)) (batchSize : Nat)
    (cp : Option Checkpoint) : List (List Char) :=
  let listed := s3List bucket batchSize (cp.map Checkpoint.lastProcessedKey)
  let valid := sortKeys (listed.filter isTimestampHashKey)
  match cp with
  | some c => valid.filter (tsAfter c.lastProcessedTimestamp)
  | none => valid

/-- The sequential queueing loop of the poller handler: each candidate key is
turned into a task (extracting its timestamp) and sent to SQS (`ok` tells
whether the send succeeds); the first failure breaks out of the loop.  The
returned list holds the successfully queued keys with their timestamps, in
order. -/
def pollLoop (ok : List Char → Bool) : List (List Char) → List (List Char × List Char)
  | [] => []
  | k :: rest =>
    match extractTimestampFromKey k with
    | none => []
    | some t => if ok k then (k, t) :: pollLoop ok rest else []

/-- Result of one poller run: the queued tasks and the checkpoint state after
the run. -/
structure ScanResult where
  enqueued : List (List Char × List Char)
  checkpoint : Option Checkpoint
deriving DecidableEq, Repr

/-- The poller handler of vector-indexing-poller.ts: read the checkpoint, list
new embedding keys, queue them in order stopping at the first failure, and —
only when at least one key was queued — write the checkpoint with the
timestamp and key of the last contiguous success. -/
def scannerRun (bucket : List (List Char)) (batchSize : Nat)
    (cp : Option Checkpoint) (ok : List Char → Bool) : ScanResult :=
  let ks := listNewEmbeddings bucket batchSize cp
  let enq := pollLoop ok ks
  { enqueued := enq
    checkpoint :=
      match enq.getLast? with
      | some (k, t) => some ⟨t, k⟩
      | none => cp }

end Poller

namespace Poller

/-- A loop iteration of the poller succeeds on a key exactly when the
timestamp extraction does not throw and the SQS send succeeds. -/
def stepOk (ok : List Char → Bool) (k : List Char) : Bool :=
  (extractTimestampFromKey k).isSome && ok k

/-- The timestamp the loop records for a key. -/
def tsOf (k : List Char) : List Char :=
  (extractTimestampFromKey k).getD []

theorem pollLoop_break (ok : List Char → Bool) :
    ∀ (pre : List (List Char)) (bad : List Char) (post : List (List Char)),
      (∀ k ∈ pre, stepOk ok k = true) → stepOk ok bad = false →
      pollLoop ok (pre ++ bad :: post) = pre.map (fun k => (k, tsOf k)) := by
  intro pre bad post hpre hbad
  induction pre with
  | nil =>
    simp only [List.nil_append, List.map_nil]
    cases he : extractTimestampFromKey bad with
    | none => simp [pollLoop, he]
    | some t =>
      have hok : ok bad = false := by
        simpa [stepOk, he] using hbad
      simp [pollLoop, he, hok]
  | cons k pre ih =>
    have hk : stepOk ok k = true := hpre k (List.mem_cons_self _ _)
    rw [stepOk, Bool.and_eq_true] at hk
    obtain ⟨hsome, hok⟩ := hk
    obtain ⟨t, ht⟩ := Option.isSome_iff_exists.mp hsome
    have ihh := ih (fun x hx => hpre x (List.mem_cons_of_mem _ hx))
    simp [pollLoop, ht, hok, ihh, tsOf]

theorem pollLoop_mem (ok : List Char → Bool) :
    ∀ (ks : List (List Char)) (p : List Char × List Char),
      p ∈ pollLoop ok ks →
      p.1 ∈ ks ∧ extractTimestampFromKey p.1 = some p.2 := by
  intro ks
  induction ks with
  | nil => intro p hp; simp [pollLoop] at hp
  | cons k rest ih =>
    intro p hp
    cases he : extractTimestampFromKey k with
    | none => simp [pollLoop, he] at hp
    | some t =>
      by_cases hok : ok k = true
      · simp only [pollLoop, he, hok, if_true, List.mem_cons] at hp
        rcases hp with h | h
        · subst h; exact ⟨List.mem_cons_self _ _, he⟩
        · obtain ⟨h1, h2⟩ := ih p h
          exact ⟨List.mem_cons_of_mem _ h1, h2⟩
      · simp [pollLoop, he, hok] at hp

theorem mem_insertKey (a k : List Char) :
    ∀ l : List (List Char), a ∈ insertKey k l → a = k ∨ a ∈ l := by
  intro l
  induction l with
  | nil => intro h; simpa [insertKey] using h
  | cons x xs ih =>
    intro h
    unfold insertKey at h
    by_cases hx : strLt x k = true
    · rw [if_pos hx] at h
      rcases List.mem_cons.mp h with h | h
      · exact Or.inr (h ▸ List.mem_cons_self _ _)
      · rcases ih h with h | h
        · exact Or.inl h
        · exact Or.inr (List.mem_cons_of_mem _ h)
    · rw [if_neg hx] at h
      rcases List.mem_cons.mp h with h | h
      · exact Or.inl h
      · exact Or.inr h

theorem mem_sortKeys (a : List Char) :
    ∀ l : List (List Char), a ∈ sortKeys l → a ∈ l := by
  intro l
  induction l with
  | nil => intro h; simp [sortKeys] at h
  | cons k ks ih =>
    intro h
    rcases mem_insertKey a k (sortKeys ks) h with h | h
    · exact h ▸ List.mem_cons_self _ _
    · exact List.mem_cons_of_mem _ (ih h)

theorem listNewEmbeddings_tsAfter (bucket : List (List Char)) (batchSize : Nat)
    (c : Checkpoint) (k : List Char)
    (hk : k ∈ listNewEmbeddings bucket batchSize (some c)) :
    tsAfter c.lastProcessedTimestamp k = true := by
  unfold listNewEmbeddings at hk
  exact (List.mem_filter.mp hk).2

theorem strLt_irrefl : ∀ l : List Char, strLt l l = false := by
  intro l
  induction l with
  | nil => rfl
  | cons a as ih => simp [strLt, ih]

theorem strLt_asymm : ∀ a b : List Char, strLt a b = true → strLt b a = false := by
  intro a
  induction a with
  | nil =>
    intro b _
    cases b with
    | nil => rfl
    | cons x xs => rfl
  | cons x xs ih =>
    intro b hab
    cases b with
    | nil => simp [strLt] at hab
    | cons y ys =>
      unfold strLt at hab ⊢
      by_cases hxy : x.toNat < y.toNat
      · have hyx : ¬ y.toNat < x.toNat := Nat.lt_asymm hxy
        simp [hxy, hyx]
      · rw [if_neg hxy] at hab
        by_cases hyx : y.toNat < x.toNat
        · rw [if_pos hyx] at hab; exact absurd hab (by simp)
        · rw [if_neg hyx] at hab
          simp [hyx, hxy, ih ys hab]

/-- Order on checkpoint states: an absent checkpoint comes before everything,
and present checkpoints are compared by their timestamp (a checkpoint never
reverts to absent). -/
def cpLe : Option Checkpoint → Option Checkpoint → Prop
  | none, _ => True
  | some _, none => False
  | some a, some b => strLt b.lastProcessedTimestamp a.lastProcessedTimestamp = false

theorem cpLe_refl (x : Option Checkpoint) : cpLe x x := by
  cases x with
  | none => trivial
  | some c => exact strLt_irrefl _

theorem scannerRun_cpLe (bucket : List (List Char)) (batchSize : Nat)
    (cp : Option Checkpoint) (ok : List Char → Bool) :
    cpLe cp (scannerRun bucket batchSize cp ok).checkpoint := by
  unfold scannerRun
  cases hg : (pollLoop ok (listNewEmbeddings bucket batchSize cp)).getLast? with
  | none => simpa [hg] using cpLe_refl cp
  | some p =>
    obtain ⟨k, t⟩ := p
    have hmem : (k, t) ∈ pollLoop ok (listNewEmbeddings bucket batchSize cp) :=
      List.mem_of_mem_getLast? (by simp [hg])
    obtain ⟨hk, hext⟩ := pollLoop_mem ok _ _ hmem
    cases cp with
    | none => simp [hg, cpLe]
    | some c =>
      have hts := listNewEmbeddings_tsAfter bucket batchSize c k hk
      unfold tsAfter at hts
      rw [hext] at hts
      simp only [hg, cpLe]
      exact strLt_asymm _ _ hts

theorem scannerRun_cp_cases (bucket : List (List Char)) (batchSize : Nat)
    (cp : Option Checkpoint) (ok : List Char → Bool) :
    (scannerRun bucket batchSize cp ok).checkpoint = cp ∨
      ∃ p ∈ (scannerRun bucket batchSize cp ok).enqueued,
        (scannerRun bucket batchSize cp ok).checkpoint = some ⟨p.2, p.1⟩ := by
  unfold scannerRun
  cases hg : (pollLoop ok (listNewEmbeddings bucket batchSize cp)).getLast? with
  | none => left; simp [hg]
  | some p =>
    obtain ⟨k, t⟩ := p
    right
    refine ⟨(k, t), List.mem_of_mem_getLast? (by simp [hg]), ?_⟩
    simp [hg]

/-- The inputs of one scheduled Scanner invocation: the bucket contents seen
by the listing and the per-key enqueue outcomes. -/
structure RunEnv where
  bucket : List (List Char)
  batchSize : Nat
  ok : List Char → Bool

/-- One Scanner run in a sequence. -/
def runScanner (e : RunEnv) (cp : Option Checkpoint) : ScanResult :=
  scannerRun e.bucket e.batchSize cp e.ok

/-- The checkpoint states seen over a sequence of Scanner runs, starting state
first. -/
def cpStates (cp : Option Checkpoint) : List RunEnv → List (Option Checkpoint)
  | [] => [cp]
  | e :: es => cp :: cpStates (runScanner e cp).checkpoint es

/-- The checkpoint state after a sequence of Scanner runs. -/
def finalCp (cp : Option Checkpoint) : List RunEnv → Option Checkpoint
  | [] => cp
  | e :: es => finalCp (runScanner e cp).checkpoint es

/-- All artifacts successfully enqueued over a sequence of Scanner runs,
paired with their extracted timestamps. -/
def enqAll (cp : Option Checkpoint) : List RunEnv → List (List Char × List Char)
  | [] => []
  | e :: es => (runScanner e cp).enqueued ++ enqAll (runScanner e cp).checkpoint es

theorem cpStates_head (cp : Option Checkpoint) (es : List RunEnv) :
    (cpStates cp es).head? = some cp := by
  cases es <;> rfl

end Poller

namespace Poller

/-- First valid test key, 2024-01-01, with a 64-character hash. -/
def pollKey1 : List Char := String.toList "2024-01-01T00:00:00.000Z-aaaaaaaaaaaaaaaaaaaaaaaaaaaaaaaaaaaaaaaaaaaaaaaaaaaaaaaaaaaaaaaa.json"

/-- Second valid test key, 2024-01-02. -/
def pollKey2 : List Char := String.toList "2024-01-02T00:00:00.000Z-aaaaaaaaaaaaaaaaaaaaaaaaaaaaaaaaaaaaaaaaaaaaaaaaaaaaaaaaaaaaaaaa.json"

/-- Third valid test key, 2024-01-03. -/
def pollKey3 : List Char := String.toList "2024-01-03T00:00:00.000Z-aaaaaaaaaaaaaaaaaaaaaaaaaaaaaaaaaaaaaaaaaaaaaaaaaaaaaaaaaaaaaaaa.json"

/-- Timestamp of the first test key. -/
def pollTs1 : List Char := String.toList "2024-01-01T00:00:00.000Z"

/-- Timestamp of the second test key. -/
def pollTs2 : List Char := String.toList "2024-01-02T00:00:00.000Z"

/-- Timestamp of the third test key. -/
def pollTs3 : List Char := String.toList "2024-01-03T00:00:00.000Z"

/-- A key not matching the naming convention. -/
def notesKey : List Char := String.toList "notes.txt"

/-- Enqueue outcome that fails exactly on the second test key. -/
def failOnSecond : List Char → Bool := fun k => !(k == pollKey2)

end Poller

/-- C10: every key accepted by the naming-convention check
`isTimestampHashKey` makes the timestamp extraction
`extractTimestampFromKey` succeed (its throwing branch is unreachable), and
the extracted value is the 24-character ISO-8601 timestamp that starts the
key. -/
theorem extract_succeeds_on_valid_keys (key : List Char)
    (h : Poller.isTimestampHashKey key = true) :
    Poller.extractTimestampFromKey key = some (key.take 24) := by
  unfold Poller.isTimestampHashKey at h
  unfold Poller.extractTimestampFromKey
  cases hm : Poller.matchPats Poller.tsPats key with
  | none => rw [hm] at h; exact absurd h (by simp)
  | some rest =>
    rw [hm] at h
    cases rest with
    | nil => simp [Poller.hashDotJson] at h
    | cons c rest2 =>
      unfold Poller.hashDotJson at h
      rw [Bool.and_eq_true, Bool.and_eq_true, Bool.and_eq_true] at h
      obtain ⟨⟨⟨hc, _⟩, _⟩, _⟩ := h
      simp [hc]

/-- Witness for C10 at a concrete valid key. -/
theorem extract_succeeds_on_valid_keys_witness :
    Poller.isTimestampHashKey Poller.pollKey1 = true ∧
      Poller.extractTimestampFromKey Poller.pollKey1 = some (Poller.pollKey1.take 24) :=
  ⟨by decide, extract_succeeds_on_valid_keys Poller.pollKey1 (by decide)⟩

/-- C9: with an empty checkpoint over a bucket holding three valid
timestamp-hash keys and `notes.txt`, the Scanner enqueues exactly the three
valid keys in ascending timestamp order, ignores `notes.txt` without
erroring the run, and advances the checkpoint to the latest of the three. -/
theorem scanner_scenario_three_valid_keys :
    Poller.scannerRun [Poller.pollKey2, Poller.notesKey, Poller.pollKey1, Poller.pollKey3]
        50 none (fun _ => true) =
      { enqueued := [(Poller.pollKey1, Poller.pollTs1), (Poller.pollKey2, Poller.pollTs2),
                     (Poller.pollKey3, Poller.pollTs3)]
        checkpoint := some ⟨Poller.pollTs3, Poller.pollKey3⟩ } := by
  decide

/-- C1: when the candidate list splits as `pre ++ bad :: post` with every key
of `pre` enqueuing successfully and `bad` failing, the Scanner stops at
`bad` (it enqueues exactly `pre`, skipping nothing and never reaching
`post`), and after the loop the checkpoint is advanced exactly to the
timestamp and key of the last successfully enqueued artifact (unchanged when
there is none). -/
theorem scanner_stops_at_first_enqueue_failure
    (bucket : List (List Char)) (batchSize : Nat) (cp : Option Poller.Checkpoint)
    (ok : List Char → Bool) (pre : List (List Char)) (bad : List Char)
    (post : List (List Char))
    (hls : Poller.listNewEmbeddings bucket batchSize cp = pre ++ bad :: post)
    (hpre : ∀ k ∈ pre, Poller.stepOk ok k = true)
    (hbad : Poller.stepOk ok bad = false) :
    (Poller.scannerRun bucket batchSize cp ok).enqueued.map Prod.fst = pre ∧
      (pre = [] → (Poller.scannerRun bucket batchSize cp ok).checkpoint = cp) ∧
      (∀ lk, pre.getLast? = some lk →
        (Poller.scannerRun bucket batchSize cp ok).checkpoint =
          some ⟨Poller.tsOf lk, lk⟩) := by
  have hloop : Poller.pollLoop ok (Poller.listNewEmbeddings bucket batchSize cp) =
      pre.map (fun k => (k, Poller.tsOf k)) := by
    rw [hls]; exact Poller.pollLoop_break ok pre bad post hpre hbad
  simp only [Poller.scannerRun, hloop]
  refine ⟨?_, ?_, ?_⟩
  · have hfst : (Prod.fst ∘ fun k : List Char => (k, Poller.tsOf k)) = id := rfl
    rw [List.map_map, hfst]
    exact List.map_id pre
  · intro hnil; subst hnil; simp
  · intro lk hlk
    have hmap : (pre.map (fun k => (k, Poller.tsOf k))).getLast? =
        some (lk, Poller.tsOf lk) := by
      rw [List.getLast?_map, hlk]; rfl
    simp [hmap]

/-- Witness for C1: three valid candidates with the second enqueue throwing;
the checkpoint advances only to the first key. -/
theorem scanner_stops_at_first_enqueue_failure_witness :
    Poller.listNewEmbeddings [Poller.pollKey1, Poller.pollKey2, Poller.pollKey3] 50 none =
        [Poller.pollKey1] ++ Poller.pollKey2 :: [Poller.pollKey3] ∧
      (Poller.scannerRun [Poller.pollKey1, Poller.pollKey2, Poller.pollKey3] 50 none
          Poller.failOnSecond).checkpoint = some ⟨Poller.tsOf Poller.pollKey1, Poller.pollKey1⟩ :=
  ⟨by decide,
    (scanner_stops_at_first_enqueue_failure _ _ _ _ [Poller.pollKey1] Poller.pollKey2
        [Poller.pollKey3] (by decide) (by decide) (by decide)).2.2
      Poller.pollKey1 (by decide)⟩

/-- C2: over every sequence of Scanner runs from any starting checkpoint
state, the checkpoint timestamps are monotonically non-decreasing from state
to state, and the final checkpoint is either the starting one or carries
exactly the timestamp (and key) of an artifact that was successfully
enqueued during the sequence — it never exceeds the timestamp of a
successfully enqueued artifact. -/
theorem checkpoint_monotone_and_anchored (cp : Option Poller.Checkpoint)
    (es : List Poller.RunEnv) :
    List.Chain' Poller.cpLe (Poller.cpStates cp es) ∧
      (Poller.finalCp cp es = cp ∨
        ∃ p ∈ Poller.enqAll cp es, Poller.finalCp cp es = some ⟨p.2, p.1⟩) := by
  constructor
  · induction es generalizing cp with
    | nil => simp [Poller.cpStates]
    | cons e es ih =>
      rw [Poller.cpStates, List.chain'_cons']
      refine ⟨?_, ih _⟩
      intro y hy
      rw [Poller.cpStates_head] at hy
      cases hy
      exact Poller.scannerRun_cpLe e.bucket e.batchSize cp e.ok
  · induction es generalizing cp with
    | nil => left; rfl
    | cons e es ih =>
      rw [Poller.finalCp, Poller.enqAll]
      rcases ih (Poller.runScanner e cp).checkpoint with hfin | ⟨p, hp, hfin⟩
      · rw [hfin]
        rcases Poller.scannerRun_cp_cases e.bucket e.batchSize cp e.ok with hc | ⟨p, hp, hc⟩
        · left; exact hc
        · right; exact ⟨p, List.mem_append_left _ hp, hc⟩
      · right; exact ⟨p, List.mem_append_right _ hp, hfin⟩

namespace Processor

/-- A chunk reference of the `embedding-status/{documentId}.json` document
(interface `EmbeddingStatus.chunkReferences` of the worker). -/
structure ChunkRef where
  chunkId : List Char
  chunkIndex : Nat
  s3_path_embedding : List Char
  s3_path_content : List Char
deriving DecidableEq, Repr

/-- `EmbeddingStatus.summary`. -/
structure EmbeddingSummary where
  totalChunks : Nat
  model : List Char
  totalTokens : Nat
deriving DecidableEq, Repr

/-- The `EmbeddingStatus` document the worker downloads: the unit of delivery. -/
structure EmbeddingStatus where
  documentId : List Char
  processingId : List Char
  originalDocument : Option (List Char × List Char)
  summary : EmbeddingSummary
  chunkReferences : List ChunkRef
deriving DecidableEq, Repr

/-- The per-chunk `UpsertRequest` sent to the home vector server.  The
floating-point vector entries are carried opaquely (the worker never computes
with them), so they are modelled as integers; the three metadata fields are
inlined. -/
structure UpsertRequest where
  documentId : List Char
  s3Bucket : List Char
  s3Key : List Char
  chunkId : List Char
  text : List Char
  vector : List Int
  metadata_chunkIndex : Nat
  metadata_totalChunks : Nat
  metadata_model : List Char
deriving DecidableEq, Repr

/-- The payload object pushed for one chunk reference, as built in
`prepareUpsertPayloads` (`originalDocument` fields default to "unknown"). -/
def mkUpsertPayload (status : EmbeddingStatus) (ref : ChunkRef)
    (content : List Char) (embedding : List Int) : UpsertRequest :=
  { documentId := status.documentId
    s3Bucket :=
      match status.originalDocument with
      | some od => od.1
      | none => String.toList "unknown"
    s3Key :=
      match status.originalDocument with
      | some od => od.2
      | none => String.toList "unknown"
    chunkId := ref.chunkId
    text := content
    vector := embedding
    metadata_chunkIndex := ref.chunkIndex
    metadata_totalChunks := status.summary.totalChunks
    metadata_model := status.summary.model }

/-- The loop of `prepareUpsertPayloads`: for each chunk reference download its
content and its embedding (the two S3 downloads are modelled by the fetch
functions, none meaning the download or parse throws); a failed chunk is
logged and skipped, the loop continues. -/
def prepareLoop (fetchContent : List Char → Option (List Char))
    (fetchEmbedding : List Char → Option (List Int))
    (status : EmbeddingStatus) : List ChunkRef → List UpsertRequest
  | [] => []
  | ref :: rest =>
    match fetchContent ref.s3_path_content, fetchEmbedding ref.s3_path_embedding with
    | some content, some embedding =>
        mkUpsertPayload status ref content embedding :: prepareLoop fetchContent fetchEmbedding status rest
    | _, _ => prepareLoop fetchContent fetchEmbedding status rest

/-- `prepareUpsertPayloads` of the worker. -/
def prepareUpsertPayloads (fetchContent : List Char → Option (List Char))
    (fetchEmbedding : List Char → Option (List Int))
    (status : EmbeddingStatus) : List UpsertRequest :=
  prepareLoop fetchContent fetchEmbedding status status.chunkReferences

/-- The per-chunk outcome of payload preparation, used to state that the loop
keeps exactly the chunks whose two downloads succeed. -/
def chunkPayload (fetchContent : List Char → Option (List Char))
    (fetchEmbedding : List Char → Option (List Int))
    (status : EmbeddingStatus) (ref : ChunkRef) : Option UpsertRequest :=
  match fetchContent ref.s3_path_content, fetchEmbedding ref.s3_path_embedding with
  | some content, some embedding => some (mkUpsertPayload status ref content embedding)
  | _, _ => none

/-- The value `upsertVectorsToHomeServer` resolves with: the parsed JSON
response, the "No data to upsert." object returned without any network call,
or the generic success object built for a non-JSON, non-HTML response body. -/
inductive UpsertOutcome (J : Type) where
  | parsedJson (v : J)
  | noData
  | genericSuccess (raw : List Char)
deriving DecidableEq, Repr

/-- The two throw sites of `upsertVectorsToHomeServer`: a non-success HTTP
status, and an HTML response body. -/
inductive UpsertError where
  | notOk (statusText : List Char)
  | htmlBody (bodyStart : List Char)
deriving DecidableEq, Repr

/-- The home server's HTTP response to the upsert POST.  `bodyJson` is the
result of `JSON.parse(responseText)`: some value of the parsed-JSON type `J`
exactly when the body is valid JSON, none when the parse throws. -/
structure HttpResponse (J : Type) where
  ok : Bool
  statusText : List Char
  body : List Char
  bodyJson : Option J
deriving DecidableEq, Repr

/-- `text.startsWith(pat)` on character lists. -/
def listStartsWith (cs pat : List Char) : Bool :=
  match pat, cs with
  | [], _ => true
  | _ :: _, [] => false
  | p :: ps, c :: cs2 => p == c && listStartsWith cs2 ps

/-- Whitespace for `String.prototype.trim` (the characters relevant to the
HTML check). -/
def isWhitespaceChar (c : Char) : Bool :=
  c == ' ' || c == '\t' || c == '\n' || c == '\r'

/-- `responseText.trim()`. -/
def trimChars (cs : List Char) : List Char :=
  ((cs.dropWhile isWhitespaceChar).reverse.dropWhile isWhitespaceChar).reverse

/-- The worker's HTML-error-page test:
`responseText.trim().startsWith('<!DOCTYPE') || responseText.trim().startsWith('<html')`. -/
def isHtmlBody (body : List Char) : Bool :=
  listStartsWith (trimChars body) (String.toList "<!DOCTYPE")
    || listStartsWith (trimChars body) (String.toList "<html")

/-- `upsertVectorsToHomeServer` of the worker: empty payload lists short-cut
to a success object without any network call; otherwise the POST response is
inspected — a non-success status throws, a JSON body is returned parsed, an
HTML body throws, and any other body is returned as a generic success
object. -/
def upsertVectorsToHomeServer {J : Type} (resp : HttpResponse J)
    (payloads : List UpsertRequest) : Except UpsertError (UpsertOutcome J) :=
  if payloads.length == 0 then .ok .noData
  else if resp.ok = false then .error (.notOk resp.statusText)
  else
    match resp.bodyJson with
    | some v => .ok (.parsedJson v)
    | none =>
      if isHtmlBody resp.body then .error (.htmlBody (resp.body.take 200))
      else .ok (.genericSuccess resp.body)

/-- The S3 mutations `processVectorTask` performs after a successful upsert,
in execution order: the metadata `PutObject` and the source `DeleteObject`. -/
inductive Ev where
  | putMetadata
  | deleteSource
deriving DecidableEq, Repr

/-- The throw sites of `processVectorTask`. -/
inductive WorkerError where
  | statusDownload
  | upsert (e : UpsertError)
  | metadataPut
  | sourceDelete
deriving DecidableEq, Repr

/-- The environment of one worker execution: S3 download outcomes, the home
server's response to the upsert POST, and the outcomes of the metadata write
and the source delete. -/
structure WorkerEnv (J : Type) where
  fetchStatus : List Char → List Char → Option EmbeddingStatus
  fetchContent : List Char → Option (List Char)
  fetchEmbedding : List Char → Option (List Int)
  upsertResponse : HttpResponse J
  putMetadataOk : Bool
  deleteOk : Bool

/-- `processVectorTask` of the worker for one source status object: download
the status document, prepare the payloads, upsert them, then on success write
the `VectorMetadataRecord` and only then delete the source status document.
The second component is the trace of S3 mutations actually performed; any
throw aborts the remaining steps. -/
def processVectorTask {J : Type} (env : WorkerEnv J)
    (sourceBucket sourceKey : List Char) :
    Except WorkerError (UpsertOutcome J) × List Ev :=
  match env.fetchStatus sourceBucket sourceKey with
  | none => (.error .statusDownload, [])
  | some status =>
    let payloads := prepareUpsertPayloads env.fetchContent env.fetchEmbedding status
    match upsertVectorsToHomeServer env.upsertResponse payloads with
    | .error e => (.error (.upsert e), [])
    | .ok result =>
      if env.putMetadataOk then
        if env.deleteOk then (.ok result, [.putMetadata, .deleteSource])
        else (.error .sourceDelete, [.putMetadata])
      else (.error .metadataPut, [])

/-- An SQS delivery to the worker, reduced to its message id and the S3
object its body points at. -/
structure SqsRecord where
  messageId : List Char
  s3Bucket : List Char
  s3Key : List Char
deriving DecidableEq, Repr

/-- The worker's SQS `handler`: every record of the batch is processed inside
its own try/catch; a failing record only contributes its own message id to
`batchItemFailures` and the loop continues with its siblings.  The returned
list is the `batchItemFailures` of the `SQSBatchResponse`. -/
def processorHandler {J : Type} (env : WorkerEnv J) : List SqsRecord → List (List Char)
  | [] => []
  | r :: rest =>
    match (processVectorTask env r.s3Bucket r.s3Key).1 with
    | .ok _ => processorHandler env rest
    | .error _ => r.messageId :: processorHandler env rest

/-- Whether processing a record's task throws. -/
def taskFails {J : Type} (env : WorkerEnv J) (r : SqsRecord) : Bool :=
  match (processVectorTask env r.s3Bucket r.s3Key).1 with
  | .ok _ => false
  | .error _ => true

end Processor

namespace Sink

/-- Modelled from the spec: the external home vector server's sink state is
not part of this repository (src/ only holds its caller); per §4.3 and §6 its
`/api/upsert` is an idempotent keyed write — each `UpsertChunk` is stored
under its globally stable `chunkId`, one logical entry per chunkId. -/
def SinkState : Type := List Char → Option Processor.UpsertRequest

/-- Modelled from the spec: upserting one chunk replaces the entry stored
under its `chunkId` and touches nothing else. -/
def sinkUpsert (s : SinkState) (c : Processor.UpsertRequest) : SinkState :=
  fun k => if k = c.chunkId then some c else s k

/-- Delivering a payload list to the sink, chunk by chunk in order. -/
def sinkUpsertAll (s : SinkState) : List Processor.UpsertRequest → SinkState
  | [] => s
  | c :: cs => sinkUpsertAll (sinkUpsert s c) cs

/-- The last chunk of a payload list carrying a given chunkId. -/
def lastKeyed (k : List Char) : List Processor.UpsertRequest → Option Processor.UpsertRequest
  | [] => none
  | c :: cs =>
    match lastKeyed k cs with
    | some c2 => some c2
    | none => if k = c.chunkId then some c else none

/-- A sink state stores every entry under its own chunkId. -/
def KeyConsistent (s : SinkState) : Prop :=
  ∀ k c, s k = some c → c.chunkId = k

theorem sinkUpsertAll_lookup :
    ∀ (cs : List Processor.UpsertRequest) (s : SinkState) (k : List Char),
      sinkUpsertAll s cs k =
        match lastKeyed k cs with
        | some c => some c
        | none => s k := by
  intro cs
  induction cs with
  | nil => intro s k; rfl
  | cons c cs ih =>
    intro s k
    rw [sinkUpsertAll, lastKeyed, ih (sinkUpsert s c) k]
    cases lastKeyed k cs with
    | some c2 => rfl
    | none =>
      unfold sinkUpsert
      by_cases hk : k = c.chunkId
      · simp [hk]
      · simp [hk]

theorem lastKeyed_chunkId (k : List Char) :
    ∀ (cs : List Processor.UpsertRequest) (c : Processor.UpsertRequest),
      lastKeyed k cs = some c → c.chunkId = k := by
  intro cs
  induction cs with
  | nil => intro c h; simp [lastKeyed] at h
  | cons c2 cs ih =>
    intro c h
    rw [lastKeyed] at h
    cases hl : lastKeyed k cs with
    | some c3 => rw [hl] at h; cases h; exact ih _ hl
    | none =>
      rw [hl] at h
      by_cases hk : k = c2.chunkId
      · rw [if_pos hk] at h; cases h; exact hk.symm
      · rw [if_neg hk] at h; cases h

end Sink

namespace Status

/-- The four externally visible document states of the status handler. -/
inductive DocStatus where
  | pending
  | processing
  | completed
  | failed
deriving DecidableEq, Repr

/-- The kinds of JSON object relevant to the status handler that can live in
the two buckets it reads: a `VectorMetadataRecord` written by the worker, an
`embedding-status/{documentId}.json` upstream document with its `status`
field, a `FailureRecord` under `errors/{documentId}.json`, and anything
else. -/
inductive S3Doc where
  | vmeta (processedAt : Option (List Char)) (totalChunks : Nat)
  | embStatus (status : List Char)
  | failureRecord
  | other
deriving DecidableEq, Repr

/-- The S3 state the status handler reads: the vector metadata bucket and the
embeddings bucket, as key/document lists. -/
structure Stores where
  vectorMetadataBucket : List (List Char × S3Doc)
  embeddingsBucket : List (List Char × S3Doc)
deriving DecidableEq, Repr

/-- `GetObject` on a modelled bucket. -/
def lookupKey (k : List Char) : List (List Char × S3Doc) → Option S3Doc
  | [] => none
  | (k2, d) :: rest => if k2 = k then some d else lookupKey k rest

/-- `getVectorMetadata` of status-handler.ts: `ListObjectsV2` with the
`vector-metadata/{documentId}/` key and `MaxKeys: 1`, then `GetObject` and
parse of the first listed object; every failure path (nothing listed, object
unreadable, parse error) is caught and returns null. -/
def getVectorMetadata (st : Stores) (docId : List Char) :
    Option (Option (List Char) × Nat) :=
  let keyStart := String.toList "vector-metadata/" ++ docId ++ String.toList "/"
  let listed := (st.vectorMetadataBucket.map Prod.fst).filter
    (fun k => Processor.listStartsWith k keyStart)
  match listed.head? with
  | none => none
  | some k =>
    match lookupKey k st.vectorMetadataBucket with
    | some (.vmeta processedAt totalChunks) => some (processedAt, totalChunks)
    | _ => none

/-- `checkEmbeddingsExistAndAreCompleted` of status-handler.ts: fetch
`embedding-status/{documentId}.json` and test `statusData.status === 'completed'`;
absence and every error return false. -/
def checkEmbeddingsExistAndAreCompleted (st : Stores) (docId : List Char) : Bool :=
  match lookupKey (String.toList "embedding-status/" ++ docId ++ String.toList ".json")
      st.embeddingsBucket with
  | some (.embStatus s) => s == String.toList "completed"
  | _ => false

/-- `getDocumentVectorStorageStatus` of status-handler.ts: a vector metadata
record means completed; otherwise completed upstream embeddings mean
processing; otherwise pending.  (The failed branch of the source is reached
only when the status check itself throws; all callees above catch their own
errors.) -/
def getDocumentVectorStorageStatus (st : Stores) (docId : List Char) : DocStatus :=
  match getVectorMetadata st docId with
  | some _ => .completed
  | none =>
    if checkEmbeddingsExistAndAreCompleted st docId then .processing else .pending

/-- The Status Resolver as worded by the spec (§4.6), for comparison with the
source: (1) terminal success record in the metadata store means completed;
(2) otherwise a terminal failure record (`errors/{documentId}.json`) means
failed; (3) otherwise a fully completed upstream artifact means processing;
(4) otherwise pending. -/
def statusPerSpec (st : Stores) (docId : List Char) : DocStatus :=
  if (getVectorMetadata st docId).isSome then .completed
  else if (lookupKey (String.toList "errors/" ++ docId ++ String.toList ".json")
      st.vectorMetadataBucket).isSome then .failed
  else if checkEmbeddingsExistAndAreCompleted st docId then .processing
  else .pending

end Status

namespace OSProc

/-- The SQS batch loop of vector-processor.ts (the OpenSearch worker
iteration): each record's task runs inside a try whose catch records the
failure and then re-throws, so the first failing record aborts the whole
invocation.  Modelled over the per-record outcome: the ok result lists the
message ids processed when every record succeeds; the error result is the
thrown failure, which fails the entire batch (no per-item report is
returned — the handler's result type is void). -/
def handlerLoop (outcome : List Char → Bool) : List (List Char) → Except (List Char) (List (List Char))
  | [] => .ok []
  | mid :: rest =>
    if outcome mid then
      match handlerLoop outcome rest with
      | .ok acks => .ok (mid :: acks)
      | .error e => .error e
    else .error mid

end OSProc

namespace Processor

/-- A concrete chunk reference for test runs. -/
def sampleRef : ChunkRef :=
  ⟨String.toList "chunk-1", 0, String.toList "emb/1", String.toList "cont/1"⟩

/-- A concrete single-chunk status document for test runs. -/
def sampleStatus : EmbeddingStatus :=
  ⟨String.toList "doc-1", String.toList "proc-1",
    some (String.toList "bucket", String.toList "key"),
    ⟨1, String.toList "model", 10⟩, [sampleRef]⟩

/-- A 200 response with a JSON body. -/
def okResponse : HttpResponse Unit :=
  ⟨true, String.toList "OK", String.toList "[]", some ()⟩

/-- An environment where every step succeeds. -/
def happyEnv : WorkerEnv Unit :=
  ⟨fun _ _ => some sampleStatus, fun _ => some (String.toList "hello"),
    fun _ => some [1, 2], okResponse, true, true⟩

/-- An environment where the single chunk's content download fails, so zero
chunks survive preparation; the recorded home-server response is a failure to
make visible that no upsert call happens at all. -/
def badChunkEnv : WorkerEnv Unit :=
  ⟨fun _ _ => some sampleStatus, fun _ => none, fun _ => some [1, 2],
    ⟨false, String.toList "Bad Gateway", [], none⟩, true, true⟩

/-- A 200 response whose body `OK` is not valid JSON and not HTML. -/
def plainTextResponse : HttpResponse Unit :=
  ⟨true, String.toList "OK", String.toList "OK", none⟩

/-- A 200 response whose body is an HTML page (not valid JSON). -/
def htmlResponse : HttpResponse Unit :=
  ⟨true, String.toList "OK", String.toList "<html>err</html>", none⟩

/-- The payload prepared from the sample chunk. -/
def sampleUpsert : UpsertRequest :=
  mkUpsertPayload sampleStatus sampleRef (String.toList "hello") [1, 2]

/-- An environment where exactly the source object `bad` fails to download. -/
def failKeyEnv : WorkerEnv Unit :=
  ⟨fun _ k => if k = String.toList "bad" then none else some sampleStatus,
    fun _ => some (String.toList "hello"), fun _ => some [1, 2], okResponse, true, true⟩

/-- A batch of five deliveries whose third points at the failing object. -/
def fiveRecords : List SqsRecord :=
  [⟨String.toList "m1", String.toList "b", String.toList "good"⟩,
   ⟨String.toList "m2", String.toList "b", String.toList "good"⟩,
   ⟨String.toList "m3", String.toList "b", String.toList "bad"⟩,
   ⟨String.toList "m4", String.toList "b", String.toList "good"⟩,
   ⟨String.toList "m5", String.toList "b", String.toList "good"⟩]

theorem prepareLoop_filterMap (fetchContent : List Char → Option (List Char))
    (fetchEmbedding : List Char → Option (List Int)) (status : EmbeddingStatus) :
    ∀ refs : List ChunkRef,
      prepareLoop fetchContent fetchEmbedding status refs =
        refs.filterMap (chunkPayload fetchContent fetchEmbedding status) := by
  intro refs
  induction refs with
  | nil => rfl
  | cons ref rest ih =>
    cases hc : fetchContent ref.s3_path_content with
    | none => simp [prepareLoop, chunkPayload, hc, List.filterMap_cons, ih]
    | some content =>
      cases he : fetchEmbedding ref.s3_path_embedding with
      | none => simp [prepareLoop, chunkPayload, hc, he, List.filterMap_cons, ih]
      | some emb => simp [prepareLoop, chunkPayload, hc, he, List.filterMap_cons, ih]

end Processor

namespace OSProc

/-- Per-record outcome failing exactly message `m3`. -/
def failThird : List Char → Bool := fun mid => !(mid == String.toList "m3")

/-- The five message ids of the batch scenario. -/
def fiveIds : List (List Char) :=
  [String.toList "m1", String.toList "m2", String.toList "m3",
   String.toList "m4", String.toList "m5"]

end OSProc

deriving instance DecidableEq for Except

namespace Status

/-- The store of the C6 counterexample: a failure record for `doc-1`,
completed upstream embeddings, and no vector metadata record. -/
def cexStore : Stores :=
  ⟨[(String.toList "errors/doc-1.json", S3Doc.failureRecord)],
    [(String.toList "embedding-status/doc-1.json",
      S3Doc.embStatus (String.toList "completed"))]⟩

end Status

/-- C3: delivering the payloads prepared from one status document to the
chunkId-keyed sink twice leaves the sink exactly as delivering them once
does, and the sink keeps one logical entry per chunkId (every stored entry
sits under its own chunkId). -/
theorem sink_upsert_idempotent (s : Sink.SinkState)
    (fetchContent : List Char → Option (List Char))
    (fetchEmbedding : List Char → Option (List Int))
    (status : Processor.EmbeddingStatus) :
    (Sink.sinkUpsertAll
        (Sink.sinkUpsertAll s (Processor.prepareUpsertPayloads fetchContent fetchEmbedding status))
        (Processor.prepareUpsertPayloads fetchContent fetchEmbedding status) =
      Sink.sinkUpsertAll s (Processor.prepareUpsertPayloads fetchContent fetchEmbedding status)) ∧
    (Sink.KeyConsistent s →
      Sink.KeyConsistent
        (Sink.sinkUpsertAll s (Processor.prepareUpsertPayloads fetchContent fetchEmbedding status))) := by
  constructor
  · funext k
    rw [Sink.sinkUpsertAll_lookup, Sink.sinkUpsertAll_lookup]
    cases hl : Sink.lastKeyed k
        (Processor.prepareUpsertPayloads fetchContent fetchEmbedding status) with
    | some c => rfl
    | none => rfl
  · intro hs k c h
    rw [Sink.sinkUpsertAll_lookup] at h
    cases hl : Sink.lastKeyed k
        (Processor.prepareUpsertPayloads fetchContent fetchEmbedding status) with
    | some c2 =>
      rw [hl] at h
      cases h
      exact Sink.lastKeyed_chunkId k _ c hl
    | none =>
      rw [hl] at h
      exact hs k c h

/-- Witness for C3: the empty sink is key-consistent and stays so after
receiving the payloads of the sample status document. -/
theorem sink_upsert_idempotent_witness :
    Sink.KeyConsistent (fun _ => none) ∧
      Sink.KeyConsistent
        (Sink.sinkUpsertAll (fun _ => none)
          (Processor.prepareUpsertPayloads Processor.happyEnv.fetchContent
            Processor.happyEnv.fetchEmbedding Processor.sampleStatus)) :=
  ⟨fun _ _ h => Option.noConfusion h,
    (sink_upsert_idempotent (fun _ => none) Processor.happyEnv.fetchContent
        Processor.happyEnv.fetchEmbedding Processor.sampleStatus).2
      (fun _ _ h => Option.noConfusion h)⟩

/-- C4 counterexample: when the only chunk of a status document fails to
prepare, zero chunks survive — yet the task does not fail: the upsert step is
skipped, the "No data to upsert." success object is returned, the metadata
record is written and the source document is deleted.  The claim says the
whole task fails in this case. -/
theorem zero_surviving_chunks_task_succeeds :
    Processor.prepareUpsertPayloads Processor.badChunkEnv.fetchContent
        Processor.badChunkEnv.fetchEmbedding Processor.sampleStatus = [] ∧
      Processor.processVectorTask Processor.badChunkEnv (String.toList "b") (String.toList "k") =
        (Except.ok Processor.UpsertOutcome.noData,
          [Processor.Ev.putMetadata, Processor.Ev.deleteSource]) := by
  decide

/-- C4 amended: a failure to prepare one chunk skips exactly that chunk — the
prepared payload list is exactly the chunks whose two downloads succeed, in
order, and those are what the upsert delivers — and when zero chunks survive
the upsert step is skipped and resolves successfully with the
"No data to upsert." object, so the task still succeeds. -/
theorem prepare_skips_failed_chunks_and_empty_succeeds {J : Type}
    (fetchContent : List Char → Option (List Char))
    (fetchEmbedding : List Char → Option (List Int))
    (status : Processor.EmbeddingStatus) (resp : Processor.HttpResponse J) :
    (Processor.prepareUpsertPayloads fetchContent fetchEmbedding status =
      status.chunkReferences.filterMap
        (Processor.chunkPayload fetchContent fetchEmbedding status)) ∧
    (Processor.upsertVectorsToHomeServer resp ([] : List Processor.UpsertRequest) =
      Except.ok Processor.UpsertOutcome.noData) := by
  constructor
  · exact Processor.prepareLoop_filterMap fetchContent fetchEmbedding status
      status.chunkReferences
  · rfl

/-- C5 counterexample: a 200 response whose body `OK` is not valid JSON (and
not HTML) is not treated as a failure — the worker resolves it into a generic
success object.  The claim says every non-JSON body is a task failure. -/
theorem nonjson_response_accepted_as_success :
    Processor.upsertVectorsToHomeServer Processor.plainTextResponse [Processor.sampleUpsert] =
      Except.ok (Processor.UpsertOutcome.genericSuccess (String.toList "OK")) := by
  decide

/-- C5 amended: for a nonempty payload list, a non-success HTTP status is a
failure, and a success status whose body is not valid JSON but is an HTML
page is a failure; only a non-JSON, non-HTML body on a success status is
accepted (as a generic success object). -/
theorem upsert_fails_on_bad_status_or_html {J : Type}
    (resp : Processor.HttpResponse J) (payloads : List Processor.UpsertRequest)
    (hne : payloads ≠ []) :
    (resp.ok = false →
      Processor.upsertVectorsToHomeServer resp payloads =
        Except.error (Processor.UpsertError.notOk resp.statusText)) ∧
    (resp.ok = true → resp.bodyJson = none → Processor.isHtmlBody resp.body = true →
      Processor.upsertVectorsToHomeServer resp payloads =
        Except.error (Processor.UpsertError.htmlBody (resp.body.take 200))) := by
  have hlen : (payloads.length == 0) = false := by
    cases payloads with
    | nil => exact absurd rfl hne
    | cons p ps => rfl
  constructor
  · intro hok
    simp [Processor.upsertVectorsToHomeServer, hlen, hok]
  · intro hok hjson hhtml
    simp [Processor.upsertVectorsToHomeServer, hlen, hok, hjson, hhtml]

/-- Witness for C5 (amended): a 200 response with an HTML body is rejected.  -/
theorem upsert_fails_on_bad_status_or_html_witness :
    Processor.isHtmlBody (String.toList "<html>err</html>") = true ∧
      Processor.upsertVectorsToHomeServer Processor.htmlResponse [Processor.sampleUpsert] =
        Except.error
          (Processor.UpsertError.htmlBody ((String.toList "<html>err</html>").take 200)) :=
  ⟨by decide,
    (upsert_fails_on_bad_status_or_html Processor.htmlResponse [Processor.sampleUpsert]
        (by decide)).2 rfl rfl (by decide)⟩

/-- C6 counterexample: a state holding a terminal failure record
`errors/doc-1.json` (and completed upstream embeddings, no metadata record):
the deployed resolver answers `processing`, while the spec's ordered check
answers `failed` — the resolver has no failure-record step. -/
theorem status_resolver_ignores_failure_record :
    Status.getDocumentVectorStorageStatus Status.cexStore (String.toList "doc-1") =
        Status.DocStatus.processing ∧
      Status.statusPerSpec Status.cexStore (String.toList "doc-1") =
        Status.DocStatus.failed ∧
      Status.DocStatus.processing ≠ Status.DocStatus.failed := by
  decide

/-- C6 amended: the resolver returns exactly one of the four states by
checking, in order: a vector metadata record means `completed`; otherwise a
fully completed upstream artifact means `processing`; otherwise `pending`.
It never returns `failed` (the source's failed branch fires only when the
check itself throws; there is no terminal-failure-record step). -/
theorem status_resolver_decision (st : Status.Stores) (docId : List Char) :
    (Status.getDocumentVectorStorageStatus st docId = Status.DocStatus.completed ↔
      (Status.getVectorMetadata st docId).isSome = true) ∧
    (Status.getDocumentVectorStorageStatus st docId = Status.DocStatus.processing ↔
      (Status.getVectorMetadata st docId = none ∧
        Status.checkEmbeddingsExistAndAreCompleted st docId = true)) ∧
    (Status.getDocumentVectorStorageStatus st docId = Status.DocStatus.pending ↔
      (Status.getVectorMetadata st docId = none ∧
        Status.checkEmbeddingsExistAndAreCompleted st docId = false)) ∧
    Status.getDocumentVectorStorageStatus st docId ≠ Status.DocStatus.failed := by
  cases hm : Status.getVectorMetadata st docId with
  | some m => simp [Status.getDocumentVectorStorageStatus, hm]
  | none =>
    cases he : Status.checkEmbeddingsExistAndAreCompleted st docId with
    | true => simp [Status.getDocumentVectorStorageStatus, hm, he]
    | false => simp [Status.getDocumentVectorStorageStatus, hm, he]

/-- C7: in every execution of the worker's task — including ones interrupted
after any number of steps, modelled by every take-n truncation of the
mutation trace — the source status document is deleted only after the
metadata record was written: no reachable trace position has the delete
without the preceding metadata write. -/
theorem metadata_written_before_source_delete {J : Type} (env : Processor.WorkerEnv J)
    (sourceBucket sourceKey : List Char) (n : Nat)
    (h : Processor.Ev.deleteSource ∈
      ((Processor.processVectorTask env sourceBucket sourceKey).2.take n)) :
    Processor.Ev.putMetadata ∈
      ((Processor.processVectorTask env sourceBucket sourceKey).2.take n) := by
  simp only [Processor.processVectorTask] at h ⊢
  cases hs : env.fetchStatus sourceBucket sourceKey with
  | none => simp [hs] at h
  | some status =>
    simp only [hs] at h ⊢
    cases hu : Processor.upsertVectorsToHomeServer env.upsertResponse
        (Processor.prepareUpsertPayloads env.fetchContent env.fetchEmbedding status) with
    | error e => simp [hu] at h
    | ok result =>
      simp only [hu] at h ⊢
      cases hpm : env.putMetadataOk with
      | false => simp [hpm] at h
      | true =>
        simp only [hpm, if_true] at h ⊢
        cases hd : env.deleteOk with
        | false =>
          simp only [hd, if_neg (by simp : ¬(false = true))] at h
          have h2 := List.mem_of_mem_take h
          simp at h2
        | true =>
          simp only [hd, if_true] at h ⊢
          match n with
          | 0 => simp at h
          | 1 => simp [List.take] at h
          | Nat.succ (Nat.succ m) => simp [List.take]

/-- Witness for C7: the fully successful execution, truncated after both
mutation steps. -/
theorem metadata_written_before_source_delete_witness :
    Processor.Ev.deleteSource ∈
        ((Processor.processVectorTask Processor.happyEnv (String.toList "b")
          (String.toList "k")).2.take 2) ∧
      Processor.Ev.putMetadata ∈
        ((Processor.processVectorTask Processor.happyEnv (String.toList "b")
          (String.toList "k")).2.take 2) :=
  ⟨by decide,
    metadata_written_before_source_delete Processor.happyEnv (String.toList "b")
      (String.toList "k") 2 (by decide)⟩

/-- C8 counterexample: the SQS handler of vector-processor.ts re-throws the
first failing record, so its invocation errors out: in a batch of five with
record `m3` failing, the handler throws `m3`, the loop never reaches `m4` and
`m5`, no per-item outcome is reported (the handler returns void), and the
queue redelivers all five messages — not exactly the one failed item with
four acknowledged. -/
theorem vector_processor_batch_aborts_on_first_failure :
    OSProc.handlerLoop OSProc.failThird OSProc.fiveIds =
      Except.error (String.toList "m3") := by
  decide

/-- C8 amended: the vector-storage worker of part_005 isolates failures per
item: `batchItemFailures` is exactly the failing subset of the batch, in
order, siblings unaffected — in particular, in the five-record batch whose
third task fails, exactly one message is retry-eligible and the four others
are acknowledged.  (The older vector-processor.ts handler instead aborts the
whole batch on the first failure.) -/
theorem processor_batch_isolation {J : Type} (env : Processor.WorkerEnv J)
    (records : List Processor.SqsRecord) :
    (Processor.processorHandler env records =
      (records.filter (Processor.taskFails env)).map Processor.SqsRecord.messageId) ∧
    (Processor.processorHandler Processor.failKeyEnv Processor.fiveRecords =
        [String.toList "m3"] ∧
      (Processor.fiveRecords.filter
        (fun r => !(Processor.taskFails Processor.failKeyEnv r))).length = 4) := by
  constructor
  · induction records with
    | nil => rfl
    | cons r rest ih =>
      cases hr : (Processor.processVectorTask env r.s3Bucket r.s3Key).1 with
      | ok v => simp [Processor.processorHandler, Processor.taskFails, hr, ih]
      | error e => simp [Processor.processorHandler, Processor.taskFails, hr, ih]
  · constructor
    · decide
    · decide
